import Mathlib

/-!
Verification development for the wispy compiler front end
(lexer `src/lexer.mts`, tree/AST builder `src/parser.mts`, compiler
`src/compiler.mts` in its final revision).  JavaScript arrays are modelled
as `List`, JS `Map` objects as insertion-ordered association lists with
JS `Map.set` semantics, thrown exceptions as `Except Err`, and the
binaryen backend module as a pure value accumulating the build calls the
compiler issues (`Op` for expression handles, `Module` for
`addFunction`/`addFunctionExport` state).
-/

namespace Wispy

/-- Error taxonomy: one constructor per distinct `throw` site in the source
(plus `typeErrorUndefined` for the JS `TypeError` raised when a property of
`undefined` is read). -/
inductive Err where
  | unknownToken (word : String)
  | typeErrorUndefined
  | expectedBracket
  | expectedLeftBracket
  | unrecognizedExpression
  | expectedIdentifierCall
  | unknownFunction (name : String)
  | expectedFunctionParameters
  | allParametersMustBeTyped
  | expectedTypedFunctionName
  | unsupportedType (name : String)
  | expectedFunctionDefinition
  | unrecognizedIdentifier (name : String)
deriving Repr, DecidableEq

/-- `Token` from `src/types/token.mts` (final revision): bracket values are
kept as the raw word string, exactly what `identifyToken` stores. `int`
values hold the result of `parseInt` on an all-digit word; `float` values
keep the literal text (the source stores `parseFloat` of it; no stage of the
compiler inspects the numeric value, only forwards it to the backend). -/
inductive Token where
  | bracket (value : String)
  | int (value : Nat)
  | float (value : String)
  | identifier (value : String)
  | typedIdentifier (value : String)
deriving Repr, DecidableEq

/-- `TokenTree` from `src/types/ast.mts`: an element is a non-bracket token
or a nested tree (one bracketed group). -/
inductive TokenTreeItem where
  | tok (t : Token)
  | tree (items : List TokenTreeItem)

abbrev TokenTree := List TokenTreeItem

/-- `AstNode` from `src/types/ast.mts`. A `BlockNode` is represented by the
`block` constructor; where the source passes a `BlockNode` we pass its
`expressions` list. -/
inductive AstNode where
  | block (expressions : List AstNode)
  | int (value : Nat)
  | float (value : String)
  | identifier (identifier : String)
  | typedIdentifier (identifier : String) (typeIdentifier : String)

/-- The two binaryen primitive types the compiler uses (`binaryen.i32`,
`binaryen.f32`). -/
inductive BinType where
  | i32
  | f32
deriving Repr, DecidableEq

/-- The binary operators of the standard library: `mod.i32.lt_s`, `gt_s`,
`eq`, `add`, `sub`, `mul` and `mod.f32.lt`, `gt`, `eq`, `add`, `sub`,
`mul`, `div`.  The operand type is recorded separately in `Op.binop`. -/
inductive BinOpKind where
  | ltS
  | gtS
  | eqOp
  | ltOp
  | gtOp
  | addOp
  | subOp
  | mulOp
  | divOp
deriving Repr, DecidableEq

/-- Backend expression handles: one constructor per binaryen build call the
compiler makes (`i32.const`, `f32.const`, `local.get`, `mod.block`,
`mod.if`, `mod.call`, `mod.nop`, and the standard-library binary
operators). -/
inductive Op where
  | constI32 (value : Nat)
  | constF32 (value : String)
  | localGet (index : Nat) (type : BinType)
  | blockOp (ops : List Op)
  | ifOp (condition : Op) (ifTrue : Op) (ifFalse : Option Op)
  | call (name : String) (args : List Op) (returnType : BinType)
  | binop (kind : BinOpKind) (type : BinType) (left right : Op)
  | nop

/-- One function registered with `mod.addFunction`: name, parameter type
list (the argument of `binaryen.createType`), result type and body. -/
structure ModuleFunction where
  name : String
  params : List BinType
  results : BinType
  body : Op

/-- The observable state of a binaryen `Module`: functions added and
exports added, in call order. -/
structure Module where
  functions : List ModuleFunction
  exported : List (String × String)

def emptyModule : Module := ⟨[], []⟩

def addFunction (mod : Module) (name : String) (params : List BinType)
    (results : BinType) (body : Op) : Module :=
  { mod with functions := mod.functions ++ [⟨name, params, results, body⟩] }

def addFunctionExport (mod : Module) (internalName externalName : String) : Module :=
  { mod with exported := mod.exported ++ [(internalName, externalName)] }

/-- A JavaScript `Map` with string keys: insertion-ordered entry list with
unique keys.  `set` overwrites in place or appends; `get` finds by key;
`new Map(entries)` is `ofEntries` (later duplicate entries overwrite
earlier ones, as `Map`'s constructor does). -/
structure JsMap (α : Type) where
  entries : List (String × α)

def setEntries {α : Type} : List (String × α) → String → α → List (String × α)
  | [], k, v => [(k, v)]
  | (k0, v0) :: rest, k, v =>
    if k0 = k then (k0, v) :: rest else (k0, v0) :: setEntries rest k v

def JsMap.set {α : Type} (m : JsMap α) (k : String) (v : α) : JsMap α :=
  ⟨setEntries m.entries k v⟩

def JsMap.get {α : Type} (m : JsMap α) (k : String) : Option α :=
  (m.entries.find? (fun e => e.1 = k)).map (fun e => e.2)

def JsMap.ofEntries {α : Type} (l : List (String × α)) : JsMap α :=
  l.foldl (fun m e => m.set e.1 e.2) ⟨[]⟩

def emptyJsMap {α : Type} : JsMap α := ⟨[]⟩

/-- `FunctionMap` from `src/compiler.mts`: function name to
`{ returnType }`. -/
abbrev FunctionMap := JsMap BinType

/-- The value of one `ParameterMap` entry: positional slot index and
binaryen type. -/
structure ParamInfo where
  index : Nat
  type : BinType
deriving Repr, DecidableEq

/-- `ParameterMap` from `src/compiler.mts`: parameter name to
`{ index, type }`. -/
abbrev ParameterMap := JsMap ParamInfo

/-! ## Lexer (`src/lexer.mts`, final revision) -/

def isWhitespace (c : Char) : Bool := c = ' ' || c = '\n' || c = '\t'

def isBracketChar (c : Char) : Bool := c = '(' || c = ')' || c = '[' || c = ']'

/-- Brackets are the only terminator tokens for now. -/
def isTerminatorChar (c : Char) : Bool := isBracketChar c

/-- The `while` loop of `consumeNextWord`: `acc` is the accumulated `token`
array, the result is the word read so far paired with the characters left
in the input. -/
def consumeWordLoop (acc : List Char) : List Char → List Char × List Char
  | [] => (acc, [])
  | c :: rest =>
    if isWhitespace c && !acc.isEmpty then (acc, rest)
    else if isWhitespace c then consumeWordLoop acc rest
    else if isTerminatorChar c && !acc.isEmpty then (acc, c :: rest)
    else if isTerminatorChar c then (acc ++ [c], rest)
    else consumeWordLoop (acc ++ [c]) rest

/-- `consumeNextWord`: `undefined` (here `none`) when no token characters
remain. -/
def consumeNextWord (chars : List Char) : Option (List Char × List Char) :=
  let r := consumeWordLoop [] chars
  if r.1.isEmpty then none else some r

/-- Splitting a character list on a separator character, the behavior of
both the anchored regexes (when combined with the shape checks below) and
of JS `String.prototype.split` on a single-character separator. -/
def splitOnChar (sep : Char) : List Char → List (List Char)
  | [] => [[]]
  | c :: rest =>
    let r := splitOnChar sep rest
    if c = sep then [] :: r
    else
      match r with
      | [] => [[c]]
      | g :: gs => (c :: g) :: gs

/-- `/^[0-9]+$/` -/
def isIntWord (w : List Char) : Bool := !w.isEmpty && w.all Char.isDigit

/-- `/^[0-9]+\.[0-9]+$/` -/
def isFloatWord (w : List Char) : Bool :=
  match splitOnChar '.' w with
  | [a, b] => !a.isEmpty && a.all Char.isDigit && !b.isEmpty && b.all Char.isDigit
  | _ => false

def isIdentStart (c : Char) : Bool := c.isAlpha || c = '_'

def isIdentRest (c : Char) : Bool := c.isAlphanum || c = '_' || c = '-'

/-- `/^[a-zA-Z_][a-zA-Z0-9_\-]*$/` -/
def isIdentifierWord (w : List Char) : Bool :=
  match w with
  | [] => false
  | c :: rest => isIdentStart c && rest.all isIdentRest

/-- `/[\(\)\[\]]/.test(word)` — note the regex is unanchored: it tests
whether the word contains a bracket character anywhere. -/
def isBracketWord (w : List Char) : Bool := w.any isBracketChar

/-- `/^[a-zA-Z_][a-zA-Z0-9_\-]*:[a-zA-Z_][a-zA-Z0-9_\-]*$/` -/
def isTypedIdentifierWord (w : List Char) : Bool :=
  match splitOnChar ':' w with
  | [a, b] => isIdentifierWord a && isIdentifierWord b
  | _ => false

/-- `parseInt` on an all-digit word. -/
def parseIntDigits (w : List Char) : Nat :=
  w.foldl (fun acc c => acc * 10 + (c.toNat - '0'.toNat)) 0

/-- `identifyToken`, with the source's classification order (first match
wins): int, float, identifier, bracket, typed identifier, else
`Unknown token`. -/
def identifyToken (word : List Char) : Except Err Token :=
  if isIntWord word then .ok (.int (parseIntDigits word))
  else if isFloatWord word then .ok (.float ⟨word⟩)
  else if isIdentifierWord word then .ok (.identifier ⟨word⟩)
  else if isBracketWord word then .ok (.bracket ⟨word⟩)
  else if isTypedIdentifierWord word then .ok (.typedIdentifier ⟨word⟩)
  else .error (.unknownToken ⟨word⟩)

theorem consumeWordLoop_length :
    ∀ (chars acc : List Char),
      (consumeWordLoop acc chars).1.length + (consumeWordLoop acc chars).2.length ≤
        acc.length + chars.length := by
  intro chars
  induction chars with
  | nil => intro acc; simp [consumeWordLoop]
  | cons c rest ih =>
    intro acc
    simp only [consumeWordLoop]
    split_ifs
    · simp only [List.length_cons]; omega
    · have := ih acc
      simp only [List.length_cons]; omega
    · simp only [List.length_cons]; omega
    · simp only [List.length_append, List.length_cons, List.length_nil]; omega
    · have := ih (acc ++ [c])
      simp only [List.length_append, List.length_cons, List.length_nil] at *
      omega

theorem consumeNextWord_length {chars w rest : List Char}
    (h : consumeNextWord chars = some (w, rest)) :
    rest.length < chars.length := by
  unfold consumeNextWord at h
  by_cases he : (consumeWordLoop [] chars).1.isEmpty = true
  · rw [if_pos he] at h
    exact absurd h (by simp)
  · rw [if_neg he] at h
    have hr : consumeWordLoop [] chars = (w, rest) := Option.some.inj h
    have hlen := consumeWordLoop_length chars []
    rw [hr] at hlen he
    have hw : 0 < w.length := by
      cases w with
      | nil => simp at he
      | cons x xs => simp
    simp only [List.length_nil] at hlen
    omega

/-- The `while` loop of `lex`: consume a word, classify it, repeat. -/
def lexLoop (chars : List Char) : Except Err (List Token) :=
  match h : consumeNextWord chars with
  | none => .ok []
  | some (w, rest) =>
    match identifyToken w with
    | .error e => .error e
    | .ok t =>
      match lexLoop rest with
      | .error e => .error e
      | .ok ts => .ok (t :: ts)
termination_by chars.length
decreasing_by exact consumeNextWord_length h

/-- `input.trim()`, modelled for the whitespace characters the lexer
recognizes (space, newline, tab); `lex` discards leading and trailing
whitespace either way, so this changes no result the claims touch. -/
def trimChars (chars : List Char) : List Char :=
  ((chars.dropWhile isWhitespace).reverse.dropWhile isWhitespace).reverse

/-- `lex` from `src/lexer.mts`. -/
def lex (input : String) : Except Err (List Token) :=
  lexLoop (trimChars input.toList)

/-! ## Tree builder and AST builder (`src/parser.mts`) -/

inductive Direction where
  | left
  | right
deriving Repr, DecidableEq

/-- The regex test `/[\(\[]/.test(value)` of `getBracketDirection` — an
unanchored containment test. -/
def leftBracketTest (v : String) : Bool := v.toList.any (fun c => c = '(' || c = '[')

/-- `getBracketDirection`: throws unless the token is a bracket; a value
passing the `/[\(\[]/` test is `left`, anything else is `right`. -/
def getBracketDirection : Token → Except Err Direction
  | .bracket v => if leftBracketTest v then .ok .left else .ok .right
  | _ => .error .expectedBracket

/-- `isLeftToken t` holds exactly when the loop guard
`token.type === "bracket" && getBracketDirection(token) === "left"` is
true. -/
def isLeftToken : Token → Bool
  | .bracket v => leftBracketTest v
  | _ => false

/-- `isRightToken t` holds exactly when
`token.type === "bracket" && getBracketDirection(token) === "right"` is
true. -/
def isRightToken : Token → Bool
  | .bracket v => !leftBracketTest v
  | _ => false

/-- `consumeLeftBracket`: reads `tokens[0]` (a `TypeError` on an empty
array), then requires direction `left`, consuming the bracket. -/
def consumeLeftBracket : List Token → Except Err (List Token)
  | [] => .error .typeErrorUndefined
  | t :: rest =>
    match getBracketDirection t with
    | .error e => .error e
    | .ok .left => .ok rest
    | .ok .right => .error .expectedLeftBracket

/-- The `while` loop of `consumeTokenTree`, entered after the opening
bracket was consumed: an opening bracket starts a nested group (the
recursive `consumeTokenTree` call consumes it and re-enters this loop), a
closing bracket is consumed and ends the group, anything else is pushed as
a leaf.  Reaching the end of the input simply ends the loop.  The result
carries the remaining tokens together with the invariant that none were
invented, which the recursion needs. -/
def consumeTreeLoop : (tokens : List Token) →
    TokenTree × { rem : List Token // rem.length ≤ tokens.length }
  | [] => ([], ⟨[], Nat.le_refl 0⟩)
  | t :: rest =>
    if isLeftToken t then
      match consumeTreeLoop rest with
      | (subTree, ⟨rem1, h1⟩) =>
        match consumeTreeLoop rem1 with
        | (contTree, ⟨rem2, h2⟩) =>
          (.tree subTree :: contTree,
            ⟨rem2, by simp only [List.length_cons]; omega⟩)
    else if isRightToken t then
      ([], ⟨rest, by simp⟩)
    else
      match consumeTreeLoop rest with
      | (contTree, ⟨rem2, h2⟩) =>
        (.tok t :: contTree,
          ⟨rem2, by simp only [List.length_cons]; omega⟩)
termination_by tokens => tokens.length
decreasing_by
  · simp only [List.length_cons]; omega
  · simp only [List.length_cons]; omega
  · simp only [List.length_cons]; omega

/-- `consumeTokenTree` with the consumed-token bound made explicit: consume
the opening bracket (`consumeLeftBracket` inlined so that the bound is
visible), then run the loop. -/
def consumeTokenTreeAux : (tokens : List Token) →
    Except Err (TokenTree × { rem : List Token // rem.length < tokens.length })
  | [] => .error .typeErrorUndefined
  | t :: rest =>
    match getBracketDirection t with
    | .error e => .error e
    | .ok .right => .error .expectedLeftBracket
    | .ok .left =>
      let r := consumeTreeLoop rest
      .ok (r.1, ⟨r.2.val, by
        have := r.2.property
        simp only [List.length_cons]
        omega⟩)

/-- `consumeTokenTree` from `src/parser.mts`: returns the tree of one
bracketed group and the tokens remaining after it. -/
def consumeTokenTree (tokens : List Token) : Except Err (TokenTree × List Token) :=
  (consumeTokenTreeAux tokens).map (fun p => (p.1, p.2.val))

/-- `parseTypedIdentifier`: split `name:type` on `":"`, taking `vals[0]`
and `vals[1]` (an absent second part, `undefined` in JS, is modelled as the
empty string; both are rejected by `mapBinaryenType` later). -/
def parseTypedIdentifier (value : String) : AstNode :=
  let vals := splitOnChar ':' value.toList
  .typedIdentifier ⟨vals.headD []⟩ ⟨(vals.get? 1).getD []⟩

mutual

/-- `parseExpression`: a sub-array becomes a `Block`, leaf tokens become
the matching AST nodes; a bracket token reaching this point (impossible
via `consumeTokenTree`) or `undefined` is `Unrecognized expression`. -/
def parseExpression : TokenTreeItem → Except Err AstNode
  | .tree items =>
    match parseItems items with
    | .error e => .error e
    | .ok ns => .ok (.block ns)
  | .tok (.identifier v) => .ok (.identifier v)
  | .tok (.typedIdentifier v) => .ok (parseTypedIdentifier v)
  | .tok (.float v) => .ok (.float v)
  | .tok (.int v) => .ok (.int v)
  | .tok (.bracket _) => .error .unrecognizedExpression

/-- `block.map(parseExpression)` with exception propagation. -/
def parseItems : List TokenTreeItem → Except Err (List AstNode)
  | [] => .ok []
  | i :: rest =>
    match parseExpression i with
    | .error e => .error e
    | .ok n =>
      match parseItems rest with
      | .error e => .error e
      | .ok ns => .ok (n :: ns)

end

/-- `parseBlock`: wrap the mapped elements of one tree in a `block`
node. -/
def parseBlock (tree : TokenTree) : Except Err AstNode :=
  match parseItems tree with
  | .error e => .error e
  | .ok ns => .ok (.block ns)

/-- The `while` loop of `parse`: consume one token tree per top-level
group. -/
def parseLoop : (tokens : List Token) → Except Err (List AstNode)
  | [] => .ok []
  | t :: rest =>
    match consumeTokenTreeAux (t :: rest) with
    | .error e => .error e
    | .ok (tree, ⟨rem, hrem⟩) =>
      match parseBlock tree with
      | .error e => .error e
      | .ok b =>
        match parseLoop rem with
        | .error e => .error e
        | .ok bs => .ok (b :: bs)
termination_by tokens => tokens.length
decreasing_by exact hrem

/-- `parse` from `src/parser.mts`: one `block` node per top-level bracket
group, wrapped in the top-level `block`. -/
def parse (tokens : List Token) : Except Err AstNode :=
  match parseLoop tokens with
  | .error e => .error e
  | .ok blocks => .ok (.block blocks)

/-! ## Compiler (`src/compiler.mts`, final revision) -/

/-- `mapBinaryenType`: exactly `"i32"` and `"f32"` are accepted. -/
def mapBinaryenType (typeIdentifier : String) : Except Err BinType :=
  if typeIdentifier = "i32" then .ok .i32
  else if typeIdentifier = "f32" then .ok .f32
  else .error (.unsupportedType typeIdentifier)

structure FunctionId where
  identifier : String
  returnType : BinType

/-- `getFunctionIdentifier`: `block.expressions[1]` must be a typed
identifier; its type part is mapped to the return type. -/
def getFunctionIdentifier (exprs : List AstNode) : Except Err FunctionId :=
  match exprs.get? 1 with
  | some (.typedIdentifier name tyName) =>
    match mapBinaryenType tyName with
    | .error e => .error e
    | .ok rt => .ok ⟨name, rt⟩
  | _ => .error .expectedTypedFunctionName

/-- The result of `getFunctionParameters`: the `ParameterMap` and the type
list handed to `binaryen.createType` (modelled as the list itself, in the
order the reducer produced it). -/
structure FunctionParams where
  parameters : ParameterMap
  parameterTypes : List BinType

/-- The `reduce` inside `getFunctionParameters`, with its running index:
each parameter must be a typed identifier; the new map entry is prepended
to the previous entries (`new Map([[id, {index, type}], ...prev])`) and the
new type is prepended to the previous type list
(`[type, ...prev.types]`). -/
def paramReduceGo (index : Nat) (prev : ParameterMap × List BinType) :
    List AstNode → Except Err (ParameterMap × List BinType)
  | [] => .ok prev
  | node :: rest =>
    match node with
    | .typedIdentifier name tyName =>
      match mapBinaryenType tyName with
      | .error e => .error e
      | .ok ty =>
        paramReduceGo (index + 1)
          (JsMap.ofEntries ((name, ⟨index, ty⟩) :: prev.1.entries), ty :: prev.2) rest
    | _ => .error .allParametersMustBeTyped

/-- `getFunctionParameters`: `block.expressions[2]` must be a block; its
elements are reduced into the parameter map and the type list. -/
def getFunctionParameters (exprs : List AstNode) : Except Err FunctionParams :=
  match exprs.get? 2 with
  | some (.block paramNodes) =>
    match paramReduceGo 0 (⟨[]⟩, []) paramNodes with
    | .error e => .error e
    | .ok (parameters, types) => .ok ⟨parameters, types⟩
  | _ => .error .expectedFunctionParameters

/-- `compileIdentifier`: look the name up in the active `ParameterMap` and
emit `mod.local.get(info.index, info.type)`; `Unrecognized identifier`
otherwise. -/
def compileIdentifier (pm : ParameterMap) (mod : Module) (name : String) :
    Except Err (Op × Module) :=
  match pm.get name with
  | none => .error (.unrecognizedIdentifier name)
  | some info => .ok (.localGet info.index info.type, mod)

def headIsIdentifier : List AstNode → Bool
  | .identifier _ :: _ => true
  | _ => false

/-- The call-form test of `compileBlock`:
`isNodeType(block.expressions[0], "identifier") && block.expressions.length > 1`. -/
def isCallForm (exprs : List AstNode) : Bool :=
  headIsIdentifier exprs && decide (exprs.length > 1)

theorem sizeOf_drop_le {α : Type} [SizeOf α] :
    ∀ (l : List α) (n : Nat), sizeOf (l.drop n) ≤ sizeOf l := by
  intro l
  induction l with
  | nil => intro n; cases n <;> simp
  | cons x xs ih =>
    intro n
    cases n with
    | zero => simp
    | succ m =>
      simp only [List.drop_succ_cons]
      have := ih m
      simp only [List.cons.sizeOf_spec]
      omega

mutual

/-- `compileExpression`: central dispatch on the node kind.  The returned
pair is the backend expression handle together with the module state after
any `addFunction`/`addFunctionExport` calls made along the way (the source
mutates `mod` in place). -/
def compileExpression (fm : FunctionMap) (pm : ParameterMap) (mod : Module) :
    AstNode → Except Err (Op × Module)
  | .block exprs => compileBlock fm pm mod exprs
  | .int v => .ok (.constI32 v, mod)
  | .float v => .ok (.constF32 v, mod)
  | .identifier name => compileIdentifier pm mod name
  | .typedIdentifier _ _ => .error .unrecognizedExpression
  termination_by node => 4 * sizeOf node

/-- `compileBlock` (argument: the block's `expressions`): dispatch to call
compilation for call forms, otherwise compile every child in order and
group them with `mod.block(null, ops, binaryen.auto)`. -/
def compileBlock (fm : FunctionMap) (pm : ParameterMap) (mod : Module)
    (exprs : List AstNode) : Except Err (Op × Module) :=
  if isCallForm exprs then compileFunctionCall fm pm mod exprs
  else
    match compileExprSeq fm pm mod exprs with
    | .error e => .error e
    | .ok (ops, mod2) => .ok (.blockOp ops, mod2)
  termination_by 4 * sizeOf exprs + 3

/-- `compileFunctionCall`: the two special forms `"fn"` and `"if"` are
checked first; any other head must be in the `FunctionMap`
(`Function ... not found` otherwise), and the remaining elements are
compiled in order as the arguments of `mod.call`. -/
def compileFunctionCall (fm : FunctionMap) (pm : ParameterMap) (mod : Module)
    (exprs : List AstNode) : Except Err (Op × Module) :=
  match exprs with
  | .identifier name :: args =>
    if name = "fn" then compileFunction fm pm mod (.identifier name :: args)
    else if name = "if" then compileIf fm pm mod (.identifier name :: args)
    else
      match fm.get name with
      | none => .error (.unknownFunction name)
      | some returnType =>
        match compileExprSeq fm pm mod args with
        | .error e => .error e
        | .ok (argOps, mod2) => .ok (.call name argOps returnType, mod2)
  | _ => .error .expectedIdentifierCall
  termination_by 4 * sizeOf exprs + 2

/-- `compileFunction` (`assertFn` inlined: the argument is a block by
construction, so only the head-is-`"fn"` check remains): derive the
function identifier and parameters, compile `block.expressions.slice(3)`
as the body block under the fresh parameter map, then
`mod.addFunction(identifier, parameterTypes, returnType, [], body)` and
`mod.addFunctionExport(identifier, identifier)`; the returned handle is
`mod.nop()`. -/
def compileFunction (fm : FunctionMap) (pm : ParameterMap) (mod : Module)
    (exprs : List AstNode) : Except Err (Op × Module) :=
  match exprs with
  | .identifier hd :: rest =>
    if hd = "fn" then
      match getFunctionIdentifier (.identifier hd :: rest) with
      | .error e => .error e
      | .ok fi =>
        match getFunctionParameters (.identifier hd :: rest) with
        | .error e => .error e
        | .ok fp =>
          match compileBlock fm fp.parameters mod (rest.drop 2) with
          | .error e => .error e
          | .ok (body, mod2) =>
            .ok (.nop,
              addFunctionExport
                (addFunction mod2 fi.identifier fp.parameterTypes fi.returnType body)
                fi.identifier fi.identifier)
    else .error .expectedFunctionDefinition
  | _ => .error .expectedFunctionDefinition
  termination_by 4 * sizeOf exprs + 1
  decreasing_by
    simp_wf
    rename_i i t h
    have := sizeOf_drop_le t 2
    omega

/-- `compileIf`: `expressions[1]` is the condition, `expressions[2]` the
then branch, `expressions[3]` the optional else branch; condition, then
and (only when present) else are compiled independently, in that order,
and `mod.if` is emitted with an absent else operand when `expressions[3]`
is absent.  Reading past the end of the array gives `undefined`, whose
compilation raises the JS `TypeError`. -/
def compileIf (fm : FunctionMap) (pm : ParameterMap) (mod : Module)
    (exprs : List AstNode) : Except Err (Op × Module) :=
  match h1 : exprs.get? 1 with
  | none => .error .typeErrorUndefined
  | some conditionNode =>
    match compileExpression fm pm mod conditionNode with
    | .error e => .error e
    | .ok (condition, mod1) =>
      match h2 : exprs.get? 2 with
      | none => .error .typeErrorUndefined
      | some ifTrueNode =>
        match compileExpression fm pm mod1 ifTrueNode with
        | .error e => .error e
        | .ok (ifTrue, mod2) =>
          match h3 : exprs.get? 3 with
          | none => .ok (.ifOp condition ifTrue none, mod2)
          | some ifFalseNode =>
            match compileExpression fm pm mod2 ifFalseNode with
            | .error e => .error e
            | .ok (ifFalse, mod3) => .ok (.ifOp condition ifTrue (some ifFalse), mod3)
  termination_by 4 * sizeOf exprs + 1
  decreasing_by
    · simp_wf
      have := List.sizeOf_lt_of_mem (List.get?_mem h1)
      omega
    · simp_wf
      have := List.sizeOf_lt_of_mem (List.get?_mem h2)
      omega
    · simp_wf
      have := List.sizeOf_lt_of_mem (List.get?_mem h3)
      omega

/-- The `.map(expression => compileExpression({ ...opts, expression }))`
pattern of `compileBlock` and of argument compilation: compile each
element left to right, threading the module state. -/
def compileExprSeq (fm : FunctionMap) (pm : ParameterMap) (mod : Module) :
    List AstNode → Except Err (List Op × Module)
  | [] => .ok ([], mod)
  | e :: rest =>
    match compileExpression fm pm mod e with
    | .error er => .error er
    | .ok (op, mod1) =>
      match compileExprSeq fm pm mod1 rest with
      | .error er => .error er
      | .ok (ops, mod2) => .ok (op :: ops, mod2)
  termination_by l => 4 * sizeOf l

end

mutual

/-- `generateFunctionMap`: if the block is itself a function definition,
record its name and return type and scan `expressions.slice(3)` (the
body); otherwise fold over the block's expressions, recursing into every
child block and merging with `new Map([...map, ...nested])`. -/
def generateFunctionMap (exprs : List AstNode) : Except Err FunctionMap :=
  match exprs with
  | .identifier hd :: rest =>
    if hd = "fn" then
      match getFunctionIdentifier (.identifier hd :: rest) with
      | .error e => .error e
      | .ok fi =>
        match generateFunctionMap (rest.drop 2) with
        | .error e => .error e
        | .ok bodyMap =>
          .ok (JsMap.ofEntries ((fi.identifier, fi.returnType) :: bodyMap.entries))
    else genFold ⟨[]⟩ (.identifier hd :: rest)
  | other => genFold ⟨[]⟩ other
  termination_by 2 * sizeOf exprs + 1
  decreasing_by
    all_goals simp_wf
    all_goals first
      | omega
      | (rename_i i t h
         have := sizeOf_drop_le t 2
         omega)

/-- The `reduce` of `generateFunctionMap`'s non-definition case. -/
def genFold (acc : FunctionMap) : List AstNode → Except Err FunctionMap
  | [] => .ok acc
  | .block inner :: rest =>
    match generateFunctionMap inner with
    | .error e => .error e
    | .ok m => genFold (JsMap.ofEntries (acc.entries ++ m.entries)) rest
  | _ :: rest => genFold acc rest
  termination_by l => 2 * sizeOf l

end

/-- `registerBinaryFunction`: add the wrapper function (two parameters of
`paramType`, body `operator(local.get(0), local.get(1))`) to the module
and record `{ returnType }` in the `FunctionMap`. -/
def registerBinaryFunction (mod : Module) (map : FunctionMap) (name : String)
    (paramType returnType : BinType) (op : BinOpKind) : Module × FunctionMap :=
  (addFunction mod name [paramType, paramType] returnType
    (.blockOp [.binop op paramType (.localGet 0 paramType) (.localGet 1 paramType)]),
   map.set name returnType)

/-- `registerMathFunction`: parameter and return type are the operand
type. -/
def registerMathFunction (mod : Module) (map : FunctionMap) (name : String)
    (type : BinType) (op : BinOpKind) : Module × FunctionMap :=
  registerBinaryFunction mod map name type type op

/-- `registerLogicFunction`: the return type is always `binaryen.i32`. -/
def registerLogicFunction (mod : Module) (map : FunctionMap) (name : String)
    (type : BinType) (op : BinOpKind) : Module × FunctionMap :=
  registerBinaryFunction mod map name type .i32 op

/-- `registerStandardFunctions`: the fixed built-in comparison and
arithmetic families, in source order. -/
def registerStandardFunctions (mod : Module) (map : FunctionMap) : Module × FunctionMap :=
  let s1 := registerLogicFunction mod map "lt_i32" .i32 .ltS
  let s2 := registerLogicFunction s1.1 s1.2 "gt_i32" .i32 .gtS
  let s3 := registerLogicFunction s2.1 s2.2 "eq_i32" .i32 .eqOp
  let s4 := registerLogicFunction s3.1 s3.2 "lt_f32" .f32 .ltOp
  let s5 := registerLogicFunction s4.1 s4.2 "gt_f32" .f32 .gtOp
  let s6 := registerLogicFunction s5.1 s5.2 "eq_f32" .f32 .eqOp
  let s7 := registerMathFunction s6.1 s6.2 "add_i32" .i32 .addOp
  let s8 := registerMathFunction s7.1 s7.2 "sub_i32" .i32 .subOp
  let s9 := registerMathFunction s8.1 s8.2 "mul_i32" .i32 .mulOp
  let s10 := registerMathFunction s9.1 s9.2 "add_f32" .f32 .addOp
  let s11 := registerMathFunction s10.1 s10.2 "sub_f32" .f32 .subOp
  let s12 := registerMathFunction s11.1 s11.2 "mul_f32" .f32 .mulOp
  registerMathFunction s12.1 s12.2 "div_f32" .f32 .divOp

/-- `compile` (argument: the top-level block's `expressions`): build the
function map with the signature pre-pass, seed the standard functions,
then compile the whole tree; the module state is the result. -/
def compile (block : List AstNode) : Except Err Module :=
  match generateFunctionMap block with
  | .error e => .error e
  | .ok functionMap =>
    let s := registerStandardFunctions emptyModule functionMap
    match compileExpression s.2 ⟨[]⟩ s.1 (.block block) with
    | .error e => .error e
    | .ok (_, mod2) => .ok mod2

/-- Whether a stage completed without throwing. -/
def isOk {α : Type} : Except Err α → Bool
  | .ok _ => true
  | .error _ => false

/-- Whether a stage threw. -/
def isError {α : Type} : Except Err α → Bool
  | .ok _ => false
  | .error _ => true

/-- The module state right after `registerStandardFunctions` seeds a fresh
module: the 13 standard functions and no exports.  `compile` of the empty
program returns exactly this module. -/
def seededModule : Module := (registerStandardFunctions emptyModule ⟨[]⟩).1

/-- The function definition `fn f:i32 [a:i32 b:f32] a`, whose two
parameters have distinct types. -/
def mixedParamsFnDef : List AstNode :=
  [.identifier "fn", .typedIdentifier "f" "i32",
   .block [.typedIdentifier "a" "i32", .typedIdentifier "b" "f32"],
   .identifier "a"]

/-- `(fn main:i32 [] (fib 15))`. -/
def mainInner : List AstNode :=
  [.identifier "fn", .typedIdentifier "main" "i32", .block [],
   .block [.identifier "fib", .int 15]]

/-- `(fn fib:i32 [val:i32] (if (lt_i32 val 2) val (add_i32 (fib (sub_i32 val 1))
(fib (sub_i32 val 2)))))`. -/
def fibInner : List AstNode :=
  [.identifier "fn", .typedIdentifier "fib" "i32",
   .block [.typedIdentifier "val" "i32"],
   .block [.identifier "if",
     .block [.identifier "lt_i32", .identifier "val", .int 2],
     .identifier "val",
     .block [.identifier "add_i32",
       .block [.identifier "fib", .block [.identifier "sub_i32", .identifier "val", .int 1]],
       .block [.identifier "fib", .block [.identifier "sub_i32", .identifier "val", .int 2]]]]]

/-- The program `(fn main:i32 [] (fib 15))` followed by the `fib`
definition: `main` calls `fib` before `fib`'s definition appears in source
order, and `fib` calls itself. -/
def forwardProgram : List AstNode := [.block mainInner, .block fibInner]

/-- The signature map of `forwardProgram` after the pre-pass and the
standard-function seeding. -/
def seededMap : FunctionMap :=
  ⟨[("main", .i32), ("fib", .i32), ("lt_i32", .i32), ("gt_i32", .i32), ("eq_i32", .i32),
    ("lt_f32", .i32), ("gt_f32", .i32), ("eq_f32", .i32), ("add_i32", .i32),
    ("sub_i32", .i32), ("mul_i32", .i32), ("add_f32", .f32), ("sub_f32", .f32),
    ("mul_f32", .f32), ("div_f32", .f32)]⟩

/-- The parameter binding table of `fib`. -/
def fibParams : ParameterMap := ⟨[("val", ⟨0, .i32⟩)]⟩

/-- Whether a token is a bracket token (of either direction). -/
def isBracketTok : Token → Bool
  | .bracket _ => true
  | _ => false

mutual

/-- Depth-first, left-to-right flattening of a token-tree item. -/
def flattenItem : TokenTreeItem → List Token
  | .tok t => [t]
  | .tree items => flattenTree items

/-- Depth-first, left-to-right flattening of a token-tree. -/
def flattenTree : TokenTree → List Token
  | [] => []
  | i :: rest => flattenItem i ++ flattenTree rest

end

/-- The non-bracket tokens of a sequence, in order. -/
def nonBrackets (ts : List Token) : List Token :=
  ts.filter (fun t => !isBracketTok t)

/-- Direction-balanced group content, as the tree builder understands it
(open and close direction only; the bracket family is irrelevant): the
empty sequence, a non-bracket token followed by balanced content, or a
complete balanced group followed by balanced content. -/
inductive Bal : List Token → Prop where
  | nil : Bal []
  | tok : ∀ (t : Token) (rest : List Token),
      isLeftToken t = false → isRightToken t = false → Bal rest →
      Bal (t :: rest)
  | grp : ∀ (l : Token) (inner : List Token) (r : Token) (rest : List Token),
      isLeftToken l = true → isRightToken r = true → Bal inner → Bal rest →
      Bal (l :: (inner ++ r :: rest))

/-- Whether a block's expression list is recognized as a function
definition by the signature pre-pass: first element an identifier
literally named `fn`. -/
def headIsFn : List AstNode → Bool
  | .identifier hd :: _ => hd = "fn"
  | _ => false

/-- The positions at which the signature pre-pass can find a function
definition named `name`: the block itself (when it is a definition whose
second element is the typed identifier `name:ty`), a definition nested in
a definition's body (`expressions.slice(3)`), or a definition inside a
child block of a non-definition block. -/
inductive FnDefIn : List AstNode → String → Prop where
  | here : ∀ (name ty : String) (rest : List AstNode),
      FnDefIn (.identifier "fn" :: .typedIdentifier name ty :: rest) name
  | inBody : ∀ (rest : List AstNode) (name : String),
      FnDefIn (rest.drop 2) name →
      FnDefIn (.identifier "fn" :: rest) name
  | inChild : ∀ (exprs inner : List AstNode) (name : String),
      headIsFn exprs = false → (.block inner) ∈ exprs → FnDefIn inner name →
      FnDefIn exprs name

/-! ## Helper lemmas -/

theorem not_left_of_right {t : Token} (h : isRightToken t = true) :
    isLeftToken t = false := by
  cases t <;> simp_all [isLeftToken, isRightToken]

theorem isBracketTok_of_left {t : Token} (h : isLeftToken t = true) :
    isBracketTok t = true := by
  cases t <;> simp_all [isLeftToken, isBracketTok]

theorem isBracketTok_of_right {t : Token} (h : isRightToken t = true) :
    isBracketTok t = true := by
  cases t <;> simp_all [isRightToken, isBracketTok]

theorem notBracket_of_neither {t : Token} (h1 : isLeftToken t = false)
    (h2 : isRightToken t = false) : isBracketTok t = false := by
  cases t <;> simp_all [isLeftToken, isRightToken, isBracketTok]

theorem terminator_not_ws {c : Char} (h : isTerminatorChar c = true) :
    isWhitespace c = false := by
  by_contra hw
  simp only [Bool.not_eq_false] at hw
  simp only [isWhitespace, Bool.or_eq_true, decide_eq_true_eq] at hw
  simp only [isTerminatorChar, isBracketChar, Bool.or_eq_true, decide_eq_true_eq] at h
  rcases hw with (hw | hw) | hw <;> subst hw <;> simp at h

/-- When the head token passes the left-bracket guard, `consumeTokenTree`
consumes it and returns the loop's tree and remainder. -/
theorem consumeTokenTree_cons_left {t : Token} (rest : List Token)
    (h : isLeftToken t = true) :
    consumeTokenTree (t :: rest) =
      .ok ((consumeTreeLoop rest).1, (consumeTreeLoop rest).2.val) := by
  cases t with
  | bracket v =>
    simp only [isLeftToken] at h
    simp [consumeTokenTree, consumeTokenTreeAux, getBracketDirection, h, Except.map]
  | int v => simp [isLeftToken] at h
  | float v => simp [isLeftToken] at h
  | identifier v => simp [isLeftToken] at h
  | typedIdentifier v => simp [isLeftToken] at h

/-- When the head token fails the left-bracket guard, `consumeTokenTree`
throws. -/
theorem consumeTokenTree_cons_not_left {t : Token} (rest : List Token)
    (h : isLeftToken t = false) :
    isError (consumeTokenTree (t :: rest)) = true := by
  cases t with
  | bracket v =>
    simp only [isLeftToken] at h
    simp [consumeTokenTree, consumeTokenTreeAux, getBracketDirection, h, Except.map, isError]
  | int v =>
    simp [consumeTokenTree, consumeTokenTreeAux, getBracketDirection, Except.map, isError]
  | float v =>
    simp [consumeTokenTree, consumeTokenTreeAux, getBracketDirection, Except.map, isError]
  | identifier v =>
    simp [consumeTokenTree, consumeTokenTreeAux, getBracketDirection, Except.map, isError]
  | typedIdentifier v =>
    simp [consumeTokenTree, consumeTokenTreeAux, getBracketDirection, Except.map, isError]

/-! ## Claims -/

/-- C8: the type-name mapping accepts exactly `i32` (backend `i32`) and
`f32` (backend `f32`), and raises the unsupported-type compile error for
every other type-name string. -/
theorem C8_type_mapping_closed :
    mapBinaryenType "i32" = .ok .i32 ∧ mapBinaryenType "f32" = .ok .f32 ∧
      ∀ s : String, s ≠ "i32" → s ≠ "f32" →
        mapBinaryenType s = .error (.unsupportedType s) := by
  refine ⟨by simp [mapBinaryenType], by simp [mapBinaryenType], ?_⟩
  intro s h1 h2
  simp [mapBinaryenType, h1, h2]

/-- Witness for C8 at the concrete strings `i32`, `f32` and `i64`. -/
theorem C8_type_mapping_closed_witness :
    mapBinaryenType "i32" = .ok .i32 ∧
      mapBinaryenType "i64" = .error (.unsupportedType "i64") :=
  ⟨C8_type_mapping_closed.1,
   C8_type_mapping_closed.2.2 "i64" (by decide) (by decide)⟩

/-- C9: `lex "(add 1 2)"` is exactly the five tokens `(`, identifier
`add`, integer 1, integer 2, `)`; and in general a bracket character seen
while a word is in progress terminates that word without being consumed
into it. -/
theorem C9_lex_example :
    lex "(add 1 2)" =
      .ok [.bracket "(", .identifier "add", .int 1, .int 2, .bracket ")"] ∧
    ∀ (acc : List Char) (c : Char) (rest : List Char),
      acc ≠ [] → isTerminatorChar c = true →
      consumeWordLoop acc (c :: rest) = (acc, c :: rest) := by
  constructor
  · simp [lex, lexLoop, trimChars, consumeNextWord, consumeWordLoop, identifyToken, isIntWord,
      isFloatWord, isIdentifierWord, isBracketWord, isTypedIdentifierWord, isWhitespace,
      isTerminatorChar, isBracketChar, splitOnChar, isIdentStart, isIdentRest, parseIntDigits]
  · intro acc c rest hacc hc
    have hw := terminator_not_ws hc
    cases acc with
    | nil => exact absurd rfl hacc
    | cons a as => simp [consumeWordLoop, hw, hc]

/-- Witness for C9's general clause at `acc = ['a']`, `c = '('`. -/
theorem C9_lex_example_witness :
    consumeWordLoop ['a'] ('(' :: [' ']) = (['a'], '(' :: [' ']) :=
  C9_lex_example.2 ['a'] '(' [' '] (by decide) (by decide)

/-- `dropWhile isWhitespace` consumes an all-whitespace character list
entirely. -/
theorem dropWhile_ws_nil :
    ∀ l : List Char, (∀ c ∈ l, isWhitespace c = true) →
      l.dropWhile isWhitespace = [] := by
  intro l
  induction l with
  | nil => intro _; rfl
  | cons a as ih =>
    intro hl
    have ha := hl a (List.mem_cons_self a as)
    simp only [List.dropWhile_cons, ha, if_true]
    exact ih (fun c hc => hl c (List.mem_cons_of_mem _ hc))

/-- C10 counterexample to the original claim's last clause: compiling the
empty program succeeds, but the module it produces is not empty — it is
the module already holding the 13 seeded standard functions. -/
theorem C10_empty_module_counterexample :
    compile [] = .ok seededModule ∧ ¬seededModule = emptyModule ∧
      seededModule.functions.length = 13 := by
  refine ⟨?_, ?_, rfl⟩
  · simp [compile, generateFunctionMap, genFold, compileExpression, compileBlock,
      compileExprSeq, isCallForm, headIsIdentifier, seededModule]
  · intro h
    have h13 : seededModule.functions.length = 13 := rfl
    rw [h] at h13
    simp [emptyModule] at h13

/-- C10 (amended): every empty or all-whitespace source string lexes to
the empty token sequence without error; `parse` of the empty token
sequence is a top-level block with no expressions; compiling that empty
block succeeds, and the module it returns holds exactly the 13 seeded
standard functions (in registration order) and no exports — not an empty
module. -/
theorem C10_empty_program (s : String)
    (hw : ∀ c ∈ s.toList, isWhitespace c = true) :
    lex s = .ok [] ∧ parse [] = .ok (.block []) ∧
      compile [] = .ok seededModule ∧
      seededModule.functions.map ModuleFunction.name =
        ["lt_i32", "gt_i32", "eq_i32", "lt_f32", "gt_f32", "eq_f32",
         "add_i32", "sub_i32", "mul_i32", "add_f32", "sub_f32", "mul_f32",
         "div_f32"] ∧
      seededModule.exported = [] := by
  have ht : trimChars s.toList = [] := by
    have h1 : s.toList.dropWhile isWhitespace = [] := dropWhile_ws_nil _ hw
    show ((s.toList.dropWhile isWhitespace).reverse.dropWhile isWhitespace).reverse = []
    rw [h1]
    rfl
  refine ⟨?_, ?_, ?_, rfl, rfl⟩
  · have hx : lex s = lexLoop (trimChars s.toList) := rfl
    rw [hx, ht]
    simp [lexLoop, consumeNextWord, consumeWordLoop]
  · simp [parse, parseLoop]
  · simp [compile, generateFunctionMap, genFold, compileExpression, compileBlock,
      compileExprSeq, isCallForm, headIsIdentifier, seededModule]

/-- Witness for C10 at the all-whitespace source `" \n\t "`. -/
theorem C10_empty_program_witness :
    lex " \n\t " = .ok [] ∧ parse [] = .ok (.block []) ∧
      compile [] = .ok seededModule ∧
      seededModule.functions.map ModuleFunction.name =
        ["lt_i32", "gt_i32", "eq_i32", "lt_f32", "gt_f32", "eq_f32",
         "add_i32", "sub_i32", "mul_i32", "add_f32", "sub_f32", "mul_f32",
         "div_f32"] ∧
      seededModule.exported = [] :=
  C10_empty_program " \n\t " (by decide)

/-- C2 (failing-input evaluation): at `fn f:i32 [a:i32 b:f32] a` the
binding table maps `a` to slot 0 with type `i32` and `b` to slot 1 with
type `f32` — as the claim states — but the type list handed to
`binaryen.createType` is `[f32, i32]`, reversed relative to the declared
order `[i32, f32]`, contradicting the claim (and the slot indices). -/
theorem C2_parameter_types_reversed :
    getFunctionParameters mixedParamsFnDef =
      .ok { parameters := ⟨[("b", ⟨1, .f32⟩), ("a", ⟨0, .i32⟩)]⟩,
            parameterTypes := [.f32, .i32] } ∧
    ((⟨[("b", ⟨1, .f32⟩), ("a", ⟨0, .i32⟩)]⟩ : ParameterMap).get "a" = some ⟨0, .i32⟩ ∧
     (⟨[("b", ⟨1, .f32⟩), ("a", ⟨0, .i32⟩)]⟩ : ParameterMap).get "b" = some ⟨1, .f32⟩) := by
  refine ⟨?_, by simp [JsMap.get, List.find?], by simp [JsMap.get, List.find?]⟩
  simp [mixedParamsFnDef, getFunctionParameters, paramReduceGo, mapBinaryenType,
    JsMap.ofEntries, JsMap.set, setEntries]

/-- C3 counterexample: the token sequence `( a` begins with an opening
bracket and ends while the group is still open, yet `consumeTokenTree`
returns the tree `[a]` with no remaining tokens instead of raising
`ParseError`. -/
theorem C3_unbalanced_counterexample :
    consumeTokenTree [.bracket "(", .identifier "a"] =
      .ok ([.tok (.identifier "a")], []) := by
  simp [consumeTokenTree, consumeTokenTreeAux, consumeTreeLoop, getBracketDirection,
    isLeftToken, isRightToken, leftBracketTest, Except.map]

/-- C3 amended: `buildTree` raises exactly when the input is empty (the JS
`TypeError` on reading `tokens[0]`) or the first token is not an opening
bracket; when the input ends while a group is open it returns the tree
built so far without error. -/
theorem C3_buildTree_error_iff :
    isError (consumeTokenTree []) = true ∧
    ∀ (t : Token) (rest : List Token),
      isOk (consumeTokenTree (t :: rest)) = true ↔ isLeftToken t = true := by
  constructor
  · simp [consumeTokenTree, consumeTokenTreeAux, isError, Except.map]
  · intro t rest
    constructor
    · intro hok
      by_contra hne
      have hl : isLeftToken t = false := by
        cases hx : isLeftToken t
        · rfl
        · exact absurd hx hne
      have herr := consumeTokenTree_cons_not_left rest hl
      cases hc : consumeTokenTree (t :: rest) with
      | ok p => rw [hc] at herr; simp [isError] at herr
      | error e => rw [hc] at hok; simp [isOk] at hok
    · intro hl
      rw [consumeTokenTree_cons_left rest hl]
      rfl

/-- C5: a standalone identifier compiles to a parameter read at the bound
slot index with the bound type exactly when the name is in the current
parameter binding table, and raises the unbound-identifier compile error
exactly when it is absent. -/
theorem C5_identifier_lookup :
    ∀ (fm : FunctionMap) (pm : ParameterMap) (mod : Module) (name : String),
      (∀ info : ParamInfo, pm.get name = some info →
        compileExpression fm pm mod (.identifier name) =
          .ok (.localGet info.index info.type, mod)) ∧
      (pm.get name = none →
        compileExpression fm pm mod (.identifier name) =
          .error (.unrecognizedIdentifier name)) := by
  intro fm pm mod name
  constructor
  · intro info h
    simp [compileExpression, compileIdentifier, h]
  · intro h
    simp [compileExpression, compileIdentifier, h]

/-- C1: an `(if c t e?)` call form compiles its condition (element 1),
then-branch (element 2) and, exactly when present, else-branch (element 3)
independently and in that order (threading the backend module state), and
the emitted backend conditional carries those compiled operands; with no
element 3 the conditional is built with an absent else operand, and a
present else operand is the compilation of element 3 itself, never a
compiled duplicate of the then branch. -/
theorem C1_if_special_form :
    ∀ (fm : FunctionMap) (pm : ParameterMap) (mod m1 m2 m3 : Module)
      (c t e : AstNode) (copnd topnd eopnd : Op),
      compileExpression fm pm mod c = .ok (copnd, m1) →
      compileExpression fm pm m1 t = .ok (topnd, m2) →
      (compileExpression fm pm mod (.block [.identifier "if", c, t]) =
          .ok (.ifOp copnd topnd none, m2)) ∧
      (compileExpression fm pm m2 e = .ok (eopnd, m3) →
        compileExpression fm pm mod (.block [.identifier "if", c, t, e]) =
          .ok (.ifOp copnd topnd (some eopnd), m3)) := by
  intro fm pm mod m1 m2 m3 c t e copnd topnd eopnd h1 h2
  constructor
  · simp [compileExpression, compileBlock, isCallForm, headIsIdentifier,
      compileFunctionCall, compileIf, h1, h2]
  · intro h3
    simp [compileExpression, compileBlock, isCallForm, headIsIdentifier,
      compileFunctionCall, compileIf, h1, h2, h3]

/-- Witness for C1 at `(if 1 2)` and `(if 1 2 3)`: the compiled else
operand is `const 3`, distinct from the compiled then branch `const 2`,
and absent when element 3 is absent. -/
theorem C1_if_special_form_witness :
    (compileExpression ⟨[]⟩ ⟨[]⟩ emptyModule
        (.block [.identifier "if", .int 1, .int 2]) =
      .ok (.ifOp (.constI32 1) (.constI32 2) none, emptyModule)) ∧
    (compileExpression ⟨[]⟩ ⟨[]⟩ emptyModule
        (.block [.identifier "if", .int 1, .int 2, .int 3]) =
      .ok (.ifOp (.constI32 1) (.constI32 2) (some (.constI32 3)), emptyModule)) := by
  have h := C1_if_special_form ⟨[]⟩ ⟨[]⟩ emptyModule emptyModule emptyModule emptyModule
    (.int 1) (.int 2) (.int 3) (.constI32 1) (.constI32 2) (.constI32 3)
    (by simp [compileExpression]) (by simp [compileExpression])
  exact ⟨h.1, h.2 (by simp [compileExpression])⟩

theorem find?_setEntries_self {α : Type} (k : String) (v : α) :
    ∀ l : List (String × α),
      (setEntries l k v).find? (fun e => e.1 = k) = some (k, v) := by
  intro l
  induction l with
  | nil => simp [setEntries, List.find?]
  | cons e rest ih =>
    obtain ⟨k0, v0⟩ := e
    by_cases h : k0 = k
    · subst h; simp [setEntries, List.find?]
    · simp [setEntries, h, List.find?, ih]

theorem find?_setEntries_ne {α : Type} {k k' : String} (hne : k' ≠ k) (v : α) :
    ∀ l : List (String × α),
      (setEntries l k v).find? (fun e => e.1 = k') = l.find? (fun e => e.1 = k') := by
  have hne2 : k ≠ k' := Ne.symm hne
  intro l
  induction l with
  | nil => simp [setEntries, List.find?, hne2]
  | cons e rest ih =>
    obtain ⟨k0, v0⟩ := e
    by_cases h : k0 = k
    · subst h
      simp [setEntries, List.find?, hne2]
    · by_cases h2 : k0 = k'
      · subst h2; simp [setEntries, h, List.find?]
      · simp [setEntries, h, h2, List.find?, ih]

theorem JsMap.get_set_self {α : Type} (m : JsMap α) (k : String) (v : α) :
    (m.set k v).get k = some v := by
  simp [JsMap.set, JsMap.get, find?_setEntries_self]

theorem JsMap.get_set_ne {α : Type} (m : JsMap α) {k k' : String} (v : α) (hne : k' ≠ k) :
    (m.set k v).get k' = m.get k' := by
  simp [JsMap.set, JsMap.get, find?_setEntries_ne hne]

/-- The thirteen built-in signatures with their recorded return types:
comparisons return the boolean-as-integer type `i32`, arithmetic returns
the operand type. -/
def builtinSignatures : List (String × BinType) :=
  [("lt_i32", .i32), ("gt_i32", .i32), ("eq_i32", .i32),
   ("lt_f32", .i32), ("gt_f32", .i32), ("eq_f32", .i32),
   ("add_i32", .i32), ("sub_i32", .i32), ("mul_i32", .i32),
   ("add_f32", .f32), ("sub_f32", .f32), ("mul_f32", .f32), ("div_f32", .f32)]

/-- C4: whatever signature map the pre-pass produced, seeding the standard
functions makes every built-in name resolve to its documented return type
(comparisons to `i32`, arithmetic to the operand type); an ordinary call
(head identifier that is neither special form, at least one argument)
whose head is absent from the signature map fails with the
unknown-function compile error, and one whose head is present compiles to
a backend call with the compiled arguments and recorded return type. -/
theorem C4_builtin_signatures_and_calls :
    (∀ (m : FunctionMap) (mod : Module) (entry : String × BinType),
      entry ∈ builtinSignatures →
      ((registerStandardFunctions mod m).2).get entry.1 = some entry.2) ∧
    (∀ (fm : FunctionMap) (pm : ParameterMap) (mod : Module) (name : String)
       (a : AstNode) (args : List AstNode),
      name ≠ "fn" → name ≠ "if" →
      (fm.get name = none →
        compileExpression fm pm mod (.block (.identifier name :: a :: args)) =
          .error (.unknownFunction name)) ∧
      (∀ (rt : BinType) (argOps : List Op) (mod2 : Module),
        fm.get name = some rt →
        compileExprSeq fm pm mod (a :: args) = .ok (argOps, mod2) →
        compileExpression fm pm mod (.block (.identifier name :: a :: args)) =
          .ok (.call name argOps rt, mod2))) := by
  constructor
  · intro m mod entry hmem
    simp only [builtinSignatures, List.mem_cons, List.not_mem_nil, or_false] at hmem
    rcases hmem with h | h | h | h | h | h | h | h | h | h | h | h | h <;>
      subst h <;>
      simp [registerStandardFunctions, registerLogicFunction, registerMathFunction,
        registerBinaryFunction, JsMap.get_set_self, JsMap.get_set_ne]
  · intro fm pm mod name a args hfn hif
    have hcall : isCallForm (.identifier name :: a :: args) = true := by
      simp [isCallForm, headIsIdentifier]
    constructor
    · intro hnone
      simp [compileExpression, compileBlock, hcall, compileFunctionCall, hfn, hif, hnone]
    · intro rt argOps mod2 hsome hargs
      simp [compileExpression, compileBlock, hcall, compileFunctionCall, hfn, hif,
        hsome, hargs]

/-- Witness for C4: `lt_i32` is registered with return type `i32` over the
empty map; an unknown head `foo` fails; `add_i32` applied to two constants
compiles to the backend call. -/
theorem C4_builtin_signatures_and_calls_witness :
    ((registerStandardFunctions emptyModule ⟨[]⟩).2).get "lt_i32" = some .i32 ∧
    compileExpression ⟨[]⟩ ⟨[]⟩ emptyModule
        (.block [.identifier "foo", .int 1]) = .error (.unknownFunction "foo") ∧
    compileExpression ⟨[("add_i32", .i32)]⟩ ⟨[]⟩ emptyModule
        (.block [.identifier "add_i32", .int 1, .int 2]) =
      .ok (.call "add_i32" [.constI32 1, .constI32 2] .i32, emptyModule) := by
  refine ⟨C4_builtin_signatures_and_calls.1 ⟨[]⟩ emptyModule ("lt_i32", .i32)
      (by simp [builtinSignatures]), ?_, ?_⟩
  · exact (C4_builtin_signatures_and_calls.2 ⟨[]⟩ ⟨[]⟩ emptyModule "foo" (.int 1) []
      (by decide) (by decide)).1 (by simp [JsMap.get, List.find?])
  · exact (C4_builtin_signatures_and_calls.2 ⟨[("add_i32", .i32)]⟩ ⟨[]⟩ emptyModule
      "add_i32" (.int 1) [.int 2] (by decide) (by decide)).2 .i32
      [.constI32 1, .constI32 2] emptyModule (by simp [JsMap.get, List.find?])
      (by simp [compileExprSeq, compileExpression])

/-- Witness for C5 at a one-entry binding table and at the empty table. -/
theorem C5_identifier_lookup_witness :
    compileExpression ⟨[]⟩ ⟨[("x", ⟨0, .i32⟩)]⟩ emptyModule (.identifier "x") =
        .ok (.localGet 0 .i32, emptyModule) ∧
      compileExpression ⟨[]⟩ ⟨[]⟩ emptyModule (.identifier "y") =
        .error (.unrecognizedIdentifier "y") :=
  ⟨(C5_identifier_lookup ⟨[]⟩ ⟨[("x", ⟨0, .i32⟩)]⟩ emptyModule "x").1 ⟨0, .i32⟩
      (by simp [JsMap.get, List.find?]),
   (C5_identifier_lookup ⟨[]⟩ ⟨[]⟩ emptyModule "y").2 (by simp [JsMap.get, List.find?])⟩

/-- Projection equations for `consumeTreeLoop`, one per loop branch. -/
theorem treeLoop_right_fst {t : Token} (ts : List Token) (h : isRightToken t = true) :
    (consumeTreeLoop (t :: ts)).1 = [] := by
  have hl := not_left_of_right h
  simp [consumeTreeLoop, hl, h]

theorem treeLoop_right_snd {t : Token} (ts : List Token) (h : isRightToken t = true) :
    (consumeTreeLoop (t :: ts)).2.val = ts := by
  have hl := not_left_of_right h
  simp [consumeTreeLoop, hl, h]

theorem treeLoop_tok_fst {t : Token} (ts : List Token) (h1 : isLeftToken t = false)
    (h2 : isRightToken t = false) :
    (consumeTreeLoop (t :: ts)).1 = .tok t :: (consumeTreeLoop ts).1 := by
  simp [consumeTreeLoop, h1, h2]

theorem treeLoop_tok_snd {t : Token} (ts : List Token) (h1 : isLeftToken t = false)
    (h2 : isRightToken t = false) :
    (consumeTreeLoop (t :: ts)).2.val = (consumeTreeLoop ts).2.val := by
  simp [consumeTreeLoop, h1, h2]

theorem treeLoop_left_fst {t : Token} (ts : List Token) (h : isLeftToken t = true) :
    (consumeTreeLoop (t :: ts)).1 =
      .tree (consumeTreeLoop ts).1 ::
        (consumeTreeLoop (consumeTreeLoop ts).2.val).1 := by
  simp [consumeTreeLoop, h]

theorem treeLoop_left_snd {t : Token} (ts : List Token) (h : isLeftToken t = true) :
    (consumeTreeLoop (t :: ts)).2.val =
      (consumeTreeLoop (consumeTreeLoop ts).2.val).2.val := by
  simp [consumeTreeLoop, h]

/-- The tree-builder loop on balanced group content followed by a closing
bracket: it consumes exactly the content and the closing bracket, and the
flattened tree is the content's non-bracket tokens in order. -/
theorem consumeTreeLoop_bal {inner : List Token} (hbal : Bal inner) :
    ∀ (r : Token) (rest : List Token), isRightToken r = true →
      (consumeTreeLoop (inner ++ r :: rest)).2.val = rest ∧
      flattenTree (consumeTreeLoop (inner ++ r :: rest)).1 = nonBrackets inner := by
  induction hbal with
  | nil =>
    intro r rest hr
    simp only [List.nil_append]
    rw [treeLoop_right_snd rest hr, treeLoop_right_fst rest hr]
    simp [flattenTree, nonBrackets]
  | tok t rest' h1 h2 hb ih =>
    intro r rest hr
    obtain ⟨ihrem, ihflat⟩ := ih r rest hr
    have hnb := notBracket_of_neither h1 h2
    simp only [List.cons_append]
    rw [treeLoop_tok_snd (rest' ++ r :: rest) h1 h2,
      treeLoop_tok_fst (rest' ++ r :: rest) h1 h2]
    refine ⟨ihrem, ?_⟩
    simp only [flattenTree, flattenItem, ihflat]
    simp [nonBrackets, List.filter_cons, hnb]
  | grp l inner2 r' rest' hl hr' hbi hbr ih1 ih2 =>
    intro r rest hr
    have hshape : (l :: (inner2 ++ r' :: rest')) ++ r :: rest =
        l :: (inner2 ++ r' :: (rest' ++ r :: rest)) := by
      simp [List.append_assoc]
    rw [hshape]
    obtain ⟨ih1rem, ih1flat⟩ := ih1 r' (rest' ++ r :: rest) hr'
    obtain ⟨ih2rem, ih2flat⟩ := ih2 r rest hr
    have hbl := isBracketTok_of_left hl
    have hbr2 := isBracketTok_of_right hr'
    rw [treeLoop_left_snd (inner2 ++ r' :: (rest' ++ r :: rest)) hl,
      treeLoop_left_fst (inner2 ++ r' :: (rest' ++ r :: rest)) hl, ih1rem]
    refine ⟨ih2rem, ?_⟩
    simp only [flattenTree, flattenItem, ih1flat, ih2flat, List.append_nil]
    simp [nonBrackets, List.filter_cons, List.filter_append, hbl, hbr2]

/-- C7: for every token sequence forming one complete balanced bracket
group, `buildTree` succeeds, consumes the whole sequence, and flattening
the returned token-tree depth-first, left-to-right yields exactly the
original non-bracket tokens in their original order, with all bracket
tokens removed. -/
theorem C7_roundtrip :
    ∀ (l : Token) (inner : List Token) (r : Token),
      isLeftToken l = true → isRightToken r = true → Bal inner →
      isOk (consumeTokenTree (l :: (inner ++ [r]))) = true ∧
      ∀ (tree : TokenTree) (rem : List Token),
        consumeTokenTree (l :: (inner ++ [r])) = .ok (tree, rem) →
        rem = [] ∧ flattenTree tree = nonBrackets (l :: (inner ++ [r])) := by
  intro l inner r hl hr hbal
  have hloop := consumeTreeLoop_bal hbal r [] hr
  have heq := consumeTokenTree_cons_left (inner ++ [r]) hl
  constructor
  · rw [heq]; rfl
  · intro tree rem hres
    rw [heq] at hres
    have hpair := Except.ok.inj hres
    have htree : (consumeTreeLoop (inner ++ [r])).1 = tree := congrArg Prod.fst hpair
    have hrem : (consumeTreeLoop (inner ++ [r])).2.val = rem := congrArg Prod.snd hpair
    constructor
    · rw [← hrem]; exact hloop.1
    · rw [← htree, hloop.2]
      have hbl := isBracketTok_of_left hl
      have hbr := isBracketTok_of_right hr
      simp [nonBrackets, List.filter_cons, List.filter_append, hbl, hbr]

/-- Witness for C7 at the group `( 1 ( x ) 2 )` (with a nested group):
flattening the returned tree gives `1 x 2`. -/
theorem C7_roundtrip_witness :
    isOk (consumeTokenTree [.bracket "(", .int 1, .bracket "(", .identifier "x",
      .bracket ")", .int 2, .bracket ")"]) = true ∧
    ([] : List Token) = [] ∧
    flattenTree [.tok (.int 1), .tree [.tok (.identifier "x")], .tok (.int 2)] =
      nonBrackets [.bracket "(", .int 1, .bracket "(", .identifier "x",
        .bracket ")", .int 2, .bracket ")"] := by
  have hbal : Bal [Token.int 1, .bracket "(", .identifier "x", .bracket ")", .int 2] := by
    have h1 : Bal [Token.int 2] := .tok _ _ (by decide) (by decide) .nil
    have h2 : Bal [Token.identifier "x"] := .tok _ _ (by decide) (by decide) .nil
    have h3 : Bal [Token.bracket "(", .identifier "x", .bracket ")", .int 2] :=
      .grp (.bracket "(") [.identifier "x"] (.bracket ")") [.int 2]
        (by decide) (by decide) h2 h1
    exact .tok _ _ (by decide) (by decide) h3
  have h := C7_roundtrip (.bracket "(")
    [.int 1, .bracket "(", .identifier "x", .bracket ")", .int 2] (.bracket ")")
    (by decide) (by decide) hbal
  have heval : consumeTokenTree (Token.bracket "(" ::
      ([Token.int 1, .bracket "(", .identifier "x", .bracket ")", .int 2] ++
        [Token.bracket ")"])) =
      .ok ([.tok (.int 1), .tree [.tok (.identifier "x")], .tok (.int 2)], []) := by
    simp +decide [consumeTokenTree, consumeTokenTreeAux, getBracketDirection,
      leftBracketTest, Except.map, treeLoop_tok_fst, treeLoop_tok_snd, treeLoop_left_fst,
      treeLoop_left_snd, treeLoop_right_fst, treeLoop_right_snd]
    constructor
    · rw [treeLoop_tok_snd _ (by decide) (by decide), treeLoop_right_snd _ (by decide),
        treeLoop_tok_fst _ (by decide) (by decide), treeLoop_right_fst _ (by decide)]
    · rw [treeLoop_tok_snd _ (by decide) (by decide), treeLoop_right_snd _ (by decide),
        treeLoop_tok_snd _ (by decide) (by decide), treeLoop_right_snd _ (by decide)]
  have h2 := h.2 [.tok (.int 1), .tree [.tok (.identifier "x")], .tok (.int 2)] [] heval
  exact ⟨h.1, h2⟩

theorem find?_isSome_iff_mem_keys {α : Type} (k : String) :
    ∀ l : List (String × α),
      ((l.find? (fun e => e.1 = k)).isSome = true) ↔ k ∈ l.map Prod.fst := by
  intro l
  induction l with
  | nil => simp [List.find?]
  | cons e rest ih =>
    obtain ⟨k0, v0⟩ := e
    by_cases h : k0 = k
    · subst h; simp [List.find?]
    · have hd : (decide (k0 = k)) = false := by simp [h]
      simp only [List.find?, hd, List.map_cons, List.mem_cons]
      rw [ih]
      constructor
      · exact Or.inr
      · rintro (hk | hk)
        · exact absurd hk.symm h
        · exact hk

theorem JsMap.get_isSome_iff {α : Type} (m : JsMap α) (k : String) :
    ((m.get k).isSome = true) ↔ k ∈ m.entries.map Prod.fst := by
  have hsame : (m.get k).isSome = (m.entries.find? (fun e => e.1 = k)).isSome := by
    unfold JsMap.get
    cases m.entries.find? (fun e => e.1 = k) <;> rfl
  rw [hsame, find?_isSome_iff_mem_keys]

theorem mem_keys_setEntries {α : Type} (k k' : String) (v : α) :
    ∀ l : List (String × α),
      (k' ∈ (setEntries l k v).map Prod.fst) ↔ (k' = k ∨ k' ∈ l.map Prod.fst) := by
  intro l
  induction l with
  | nil => simp [setEntries]
  | cons e rest ih =>
    obtain ⟨k0, v0⟩ := e
    by_cases h : k0 = k
    · subst h
      have hs : setEntries ((k0, v0) :: rest) k0 v = (k0, v) :: rest := by
        simp [setEntries]
      rw [hs]
      simp only [List.map_cons, List.mem_cons]
      tauto
    · have hs : setEntries ((k0, v0) :: rest) k v = (k0, v0) :: setEntries rest k v := by
        simp [setEntries, h]
      rw [hs]
      simp only [List.map_cons, List.mem_cons, ih]
      tauto

theorem mem_keys_foldl_set {α : Type} (k : String) :
    ∀ (l : List (String × α)) (acc : JsMap α),
      (k ∈ (l.foldl (fun m e => m.set e.1 e.2) acc).entries.map Prod.fst) ↔
        (k ∈ acc.entries.map Prod.fst ∨ k ∈ l.map Prod.fst) := by
  intro l
  induction l with
  | nil => intro acc; simp
  | cons e rest ih =>
    intro acc
    obtain ⟨k0, v0⟩ := e
    simp only [List.foldl_cons]
    rw [ih]
    have hset : (acc.set k0 v0).entries = setEntries acc.entries k0 v0 := rfl
    rw [hset, mem_keys_setEntries]
    simp only [List.map_cons, List.mem_cons]
    tauto

theorem get_isSome_ofEntries {α : Type} (l : List (String × α)) (k : String) :
    (((JsMap.ofEntries l).get k).isSome = true) ↔ k ∈ l.map Prod.fst := by
  rw [JsMap.get_isSome_iff, JsMap.ofEntries, mem_keys_foldl_set]
  simp

theorem genFold_pres {name : String} :
    ∀ (l : List AstNode) (acc : FunctionMap) (m : FunctionMap),
      genFold acc l = .ok m → (acc.get name).isSome = true →
      (m.get name).isSome = true := by
  intro l
  induction l with
  | nil =>
    intro acc m hm hacc
    simp only [genFold] at hm
    cases hm
    exact hacc
  | cons e rest ih =>
    intro acc m hm hacc
    cases e with
    | block inner =>
      simp only [genFold] at hm
      cases hgen : generateFunctionMap inner with
      | error er => rw [hgen] at hm; cases hm
      | ok mi =>
        rw [hgen] at hm
        refine ih _ m hm ?_
        rw [get_isSome_ofEntries]
        rw [JsMap.get_isSome_iff] at hacc
        simp [hacc]
    | int v => simp only [genFold] at hm; exact ih _ m hm hacc
    | float v => simp only [genFold] at hm; exact ih _ m hm hacc
    | identifier v => simp only [genFold] at hm; exact ih _ m hm hacc
    | typedIdentifier v ty => simp only [genFold] at hm; exact ih _ m hm hacc

theorem genFold_mem {name : String} {inner : List AstNode}
    (hgood : ∀ mi : FunctionMap, generateFunctionMap inner = .ok mi →
      (mi.get name).isSome = true) :
    ∀ (l : List AstNode) (acc : FunctionMap) (m : FunctionMap),
      genFold acc l = .ok m → (.block inner) ∈ l →
      (m.get name).isSome = true := by
  intro l
  induction l with
  | nil => intro acc m hm hmem; cases hmem
  | cons e rest ih =>
    intro acc m hm hmem
    rcases List.mem_cons.mp hmem with heq | hmem2
    · subst heq
      simp only [genFold] at hm
      cases hgen : generateFunctionMap inner with
      | error er => rw [hgen] at hm; cases hm
      | ok mi =>
        rw [hgen] at hm
        refine genFold_pres rest _ m hm ?_
        rw [get_isSome_ofEntries]
        have := hgood mi hgen
        rw [JsMap.get_isSome_iff] at this
        simp [this]
    · cases e with
      | block inner2 =>
        simp only [genFold] at hm
        cases hgen : generateFunctionMap inner2 with
        | error er => rw [hgen] at hm; cases hm
        | ok mi => rw [hgen] at hm; exact ih _ m hm hmem2
      | int v => simp only [genFold] at hm; exact ih _ m hm hmem2
      | float v => simp only [genFold] at hm; exact ih _ m hm hmem2
      | identifier v => simp only [genFold] at hm; exact ih _ m hm hmem2
      | typedIdentifier v ty => simp only [genFold] at hm; exact ih _ m hm hmem2

/-- The signature pre-pass finds every function definition anywhere in the
tree: if a definition of `name` occurs at any `FnDefIn` position and the
pre-pass completes, the resulting map contains `name`. -/
theorem generateFunctionMap_contains {exprs : List AstNode} {name : String}
    (hdef : FnDefIn exprs name) :
    ∀ m : FunctionMap, generateFunctionMap exprs = .ok m →
      (m.get name).isSome = true := by
  induction hdef with
  | here name ty rest =>
    intro m hm
    simp only [generateFunctionMap, if_pos rfl] at hm
    cases hfi : getFunctionIdentifier
        (AstNode.identifier "fn" :: .typedIdentifier name ty :: rest) with
    | error er => rw [hfi] at hm; cases hm
    | ok fi =>
      rw [hfi] at hm
      cases hbm : generateFunctionMap ((AstNode.typedIdentifier name ty :: rest).drop 2) with
      | error er => rw [hbm] at hm; cases hm
      | ok bm =>
        rw [hbm] at hm
        cases hm
        have hname : fi.identifier = name := by
          simp only [getFunctionIdentifier, List.get?] at hfi
          cases hmap : mapBinaryenType ty with
          | error er => rw [hmap] at hfi; cases hfi
          | ok rt => rw [hmap] at hfi; cases hfi; rfl
        rw [get_isSome_ofEntries]
        simp [hname]
  | inBody rest name hbody ih =>
    intro m hm
    simp only [generateFunctionMap, if_pos rfl] at hm
    cases hfi : getFunctionIdentifier (AstNode.identifier "fn" :: rest) with
    | error er => rw [hfi] at hm; cases hm
    | ok fi =>
      rw [hfi] at hm
      cases hbm : generateFunctionMap (rest.drop 2) with
      | error er => rw [hbm] at hm; cases hm
      | ok bm =>
        rw [hbm] at hm
        cases hm
        have := ih bm hbm
        rw [JsMap.get_isSome_iff] at this
        rw [get_isSome_ofEntries]
        simp [this]
  | inChild exprs inner name hnotfn hmem hdef ih =>
    intro m hm
    have hfold : genFold ⟨[]⟩ exprs = .ok m := by
      cases exprs with
      | nil => simpa [generateFunctionMap] using hm
      | cons e rest =>
        cases e with
        | identifier hd =>
          have hne : ¬(hd = "fn") := by
            simp only [headIsFn] at hnotfn
            simpa using hnotfn
          simpa [generateFunctionMap, hne] using hm
        | block inner2 => simpa [generateFunctionMap] using hm
        | int v => simpa [generateFunctionMap] using hm
        | float v => simpa [generateFunctionMap] using hm
        | typedIdentifier v ty => simpa [generateFunctionMap] using hm
    exact genFold_mem ih exprs ⟨[]⟩ m hfold hmem

/-! ### Evaluation lemmas: one conditional equation per branch of the
signature pre-pass and the compiler, used to evaluate concrete programs by
plain application. -/

theorem gen_fn_ok {rest : List AstNode} {fi : FunctionId} {bm : FunctionMap}
    (h1 : getFunctionIdentifier (.identifier "fn" :: rest) = .ok fi)
    (h2 : generateFunctionMap (rest.drop 2) = .ok bm) :
    generateFunctionMap (.identifier "fn" :: rest) =
      .ok (JsMap.ofEntries ((fi.identifier, fi.returnType) :: bm.entries)) := by
  simp [generateFunctionMap, h1, h2]

theorem gen_identifier_head_ok {v : String} {rest : List AstNode} {m : FunctionMap}
    (hne : ¬v = "fn") (h : genFold ⟨[]⟩ (.identifier v :: rest) = .ok m) :
    generateFunctionMap (.identifier v :: rest) = .ok m := by
  simp [generateFunctionMap, hne, h]

theorem gen_block_head_ok {inner rest : List AstNode} {m : FunctionMap}
    (h : genFold ⟨[]⟩ (.block inner :: rest) = .ok m) :
    generateFunctionMap (.block inner :: rest) = .ok m := by
  simp [generateFunctionMap, h]

theorem genFold_nil_ok (acc : FunctionMap) : genFold acc [] = .ok acc := by
  simp [genFold]

theorem genFold_block_ok {acc : FunctionMap} {inner rest : List AstNode}
    {mi m : FunctionMap} (h1 : generateFunctionMap inner = .ok mi)
    (h2 : genFold (JsMap.ofEntries (acc.entries ++ mi.entries)) rest = .ok m) :
    genFold acc (.block inner :: rest) = .ok m := by
  simp [genFold, h1, h2]

theorem genFold_skip_identifier {acc : FunctionMap} {v : String} {rest : List AstNode}
    {m : FunctionMap} (h : genFold acc rest = .ok m) :
    genFold acc (.identifier v :: rest) = .ok m := by
  simp [genFold, h]

theorem genFold_skip_int {acc : FunctionMap} {v : Nat} {rest : List AstNode}
    {m : FunctionMap} (h : genFold acc rest = .ok m) :
    genFold acc (.int v :: rest) = .ok m := by
  simp [genFold, h]

theorem genFold_skip_typedIdentifier {acc : FunctionMap} {v ty : String}
    {rest : List AstNode} {m : FunctionMap} (h : genFold acc rest = .ok m) :
    genFold acc (.typedIdentifier v ty :: rest) = .ok m := by
  simp [genFold, h]

theorem cE_block_eq (fm : FunctionMap) (pm : ParameterMap) (mod : Module)
    (exprs : List AstNode) :
    compileExpression fm pm mod (.block exprs) = compileBlock fm pm mod exprs := by
  simp [compileExpression]

theorem cE_int_ok (fm : FunctionMap) (pm : ParameterMap) (mod : Module) (v : Nat) :
    compileExpression fm pm mod (.int v) = .ok (.constI32 v, mod) := by
  simp [compileExpression]

theorem cE_identifier_ok {pm : ParameterMap} {name : String} {info : ParamInfo}
    (fm : FunctionMap) (mod : Module) (h : pm.get name = some info) :
    compileExpression fm pm mod (.identifier name) =
      .ok (.localGet info.index info.type, mod) := by
  simp [compileExpression, compileIdentifier, h]

theorem compileBlock_call_eq {exprs : List AstNode} (fm : FunctionMap)
    (pm : ParameterMap) (mod : Module) (h : isCallForm exprs = true) :
    compileBlock fm pm mod exprs = compileFunctionCall fm pm mod exprs := by
  simp [compileBlock, h]

theorem compileBlock_seq_ok {fm : FunctionMap} {pm : ParameterMap} {mod : Module}
    {exprs : List AstNode} {ops : List Op} {mod2 : Module}
    (h : isCallForm exprs = false)
    (h2 : compileExprSeq fm pm mod exprs = .ok (ops, mod2)) :
    compileBlock fm pm mod exprs = .ok (.blockOp ops, mod2) := by
  simp [compileBlock, h, h2]

theorem cFC_ordinary_ok {fm : FunctionMap} {pm : ParameterMap} {mod : Module}
    {name : String} {args : List AstNode} {rt : BinType} {ops : List Op} {mod2 : Module}
    (hfn : ¬name = "fn") (hif : ¬name = "if") (hget : fm.get name = some rt)
    (hargs : compileExprSeq fm pm mod args = .ok (ops, mod2)) :
    compileFunctionCall fm pm mod (.identifier name :: args) =
      .ok (.call name ops rt, mod2) := by
  simp [compileFunctionCall, hfn, hif, hget, hargs]

theorem cFC_fn_eq (fm : FunctionMap) (pm : ParameterMap) (mod : Module)
    (args : List AstNode) :
    compileFunctionCall fm pm mod (.identifier "fn" :: args) =
      compileFunction fm pm mod (.identifier "fn" :: args) := by
  simp [compileFunctionCall]

theorem cFC_if_eq (fm : FunctionMap) (pm : ParameterMap) (mod : Module)
    (args : List AstNode) :
    compileFunctionCall fm pm mod (.identifier "if" :: args) =
      compileIf fm pm mod (.identifier "if" :: args) := by
  simp [compileFunctionCall]

theorem compileFunction_ok {fm : FunctionMap} {pm : ParameterMap} {mod : Module}
    {rest : List AstNode} {fi : FunctionId} {fp : FunctionParams} {body : Op}
    {mod2 : Module}
    (hfi : getFunctionIdentifier (.identifier "fn" :: rest) = .ok fi)
    (hfp : getFunctionParameters (.identifier "fn" :: rest) = .ok fp)
    (hbody : compileBlock fm fp.parameters mod (rest.drop 2) = .ok (body, mod2)) :
    compileFunction fm pm mod (.identifier "fn" :: rest) =
      .ok (.nop, addFunctionExport
        (addFunction mod2 fi.identifier fp.parameterTypes fi.returnType body)
        fi.identifier fi.identifier) := by
  simp [compileFunction, hfi, hfp, hbody]

theorem compileIf_some_ok {fm : FunctionMap} {pm : ParameterMap} {mod : Module}
    {exprs : List AstNode} {c t e : AstNode} {copnd topnd eopnd : Op}
    {m1 m2 m3 : Module}
    (h1 : exprs.get? 1 = some c) (h2 : exprs.get? 2 = some t)
    (h3 : exprs.get? 3 = some e)
    (hc : compileExpression fm pm mod c = .ok (copnd, m1))
    (ht : compileExpression fm pm m1 t = .ok (topnd, m2))
    (he : compileExpression fm pm m2 e = .ok (eopnd, m3)) :
    compileIf fm pm mod exprs = .ok (.ifOp copnd topnd (some eopnd), m3) := by
  simp only [compileIf]
  split
  · rename_i heq; rw [h1] at heq; cases heq
  · rename_i heq
    rw [h1] at heq; injection heq with heq; subst heq
    split
    · rename_i heq; rw [hc] at heq; cases heq
    · rename_i heq
      rw [hc] at heq; injection heq with heq
      injection heq with ha hb; subst ha; subst hb
      split
      · rename_i heq; rw [h2] at heq; cases heq
      · rename_i heq
        rw [h2] at heq; injection heq with heq; subst heq
        split
        · rename_i heq; rw [ht] at heq; cases heq
        · rename_i heq
          rw [ht] at heq; injection heq with heq
          injection heq with ha hb; subst ha; subst hb
          split
          · rename_i heq; rw [h3] at heq; cases heq
          · rename_i heq
            rw [h3] at heq; injection heq with heq; subst heq
            split
            · rename_i heq; rw [he] at heq; cases heq
            · rename_i heq
              rw [he] at heq; injection heq with heq
              injection heq with ha hb; subst ha; subst hb
              rfl

theorem compileExprSeq_nil_ok (fm : FunctionMap) (pm : ParameterMap) (mod : Module) :
    compileExprSeq fm pm mod [] = .ok ([], mod) := by
  simp [compileExprSeq]

theorem compileExprSeq_cons_ok {fm : FunctionMap} {pm : ParameterMap} {mod : Module}
    {e : AstNode} {rest : List AstNode} {op : Op} {m1 : Module} {ops : List Op}
    {m2 : Module}
    (h1 : compileExpression fm pm mod e = .ok (op, m1))
    (h2 : compileExprSeq fm pm m1 rest = .ok (ops, m2)) :
    compileExprSeq fm pm mod (e :: rest) = .ok (op :: ops, m2) := by
  simp [compileExprSeq, h1, h2]

theorem compile_ok {block : List AstNode} {fm : FunctionMap} {op : Op} {mod2 : Module}
    (hgen : generateFunctionMap block = .ok fm)
    (hcE : compileExpression (registerStandardFunctions emptyModule fm).2 ⟨[]⟩
      (registerStandardFunctions emptyModule fm).1 (.block block) = .ok (op, mod2)) :
    compile block = .ok mod2 := by
  simp [compile, hgen, hcE]

/-- The signature pre-pass on `forwardProgram` finds both definitions,
`main` first. -/
theorem generateFunctionMap_forwardProgram :
    generateFunctionMap forwardProgram = .ok ⟨[("main", .i32), ("fib", .i32)]⟩ := by
  have hsub1 : generateFunctionMap
      [.identifier "sub_i32", .identifier "val", .int 1] = .ok ⟨[]⟩ :=
    gen_identifier_head_ok (by decide)
      (genFold_skip_identifier (genFold_skip_identifier
        (genFold_skip_int (genFold_nil_ok _))))
  have hsub2 : generateFunctionMap
      [.identifier "sub_i32", .identifier "val", .int 2] = .ok ⟨[]⟩ :=
    gen_identifier_head_ok (by decide)
      (genFold_skip_identifier (genFold_skip_identifier
        (genFold_skip_int (genFold_nil_ok _))))
  have hfc1 : generateFunctionMap
      [.identifier "fib", .block [.identifier "sub_i32", .identifier "val", .int 1]] =
      .ok ⟨[]⟩ :=
    gen_identifier_head_ok (by decide)
      (genFold_skip_identifier (genFold_block_ok hsub1 (genFold_nil_ok _)))
  have hfc2 : generateFunctionMap
      [.identifier "fib", .block [.identifier "sub_i32", .identifier "val", .int 2]] =
      .ok ⟨[]⟩ :=
    gen_identifier_head_ok (by decide)
      (genFold_skip_identifier (genFold_block_ok hsub2 (genFold_nil_ok _)))
  have hlt : generateFunctionMap
      [.identifier "lt_i32", .identifier "val", .int 2] = .ok ⟨[]⟩ :=
    gen_identifier_head_ok (by decide)
      (genFold_skip_identifier (genFold_skip_identifier
        (genFold_skip_int (genFold_nil_ok _))))
  have hadd : generateFunctionMap
      [.identifier "add_i32",
       .block [.identifier "fib", .block [.identifier "sub_i32", .identifier "val", .int 1]],
       .block [.identifier "fib", .block [.identifier "sub_i32", .identifier "val", .int 2]]] =
      .ok ⟨[]⟩ :=
    gen_identifier_head_ok (by decide)
      (genFold_skip_identifier (genFold_block_ok hfc1
        (genFold_block_ok hfc2 (genFold_nil_ok _))))
  have hifl : generateFunctionMap
      [.identifier "if",
       .block [.identifier "lt_i32", .identifier "val", .int 2],
       .identifier "val",
       .block [.identifier "add_i32",
         .block [.identifier "fib", .block [.identifier "sub_i32", .identifier "val", .int 1]],
         .block [.identifier "fib", .block [.identifier "sub_i32", .identifier "val", .int 2]]]] =
      .ok ⟨[]⟩ :=
    gen_identifier_head_ok (by decide)
      (genFold_skip_identifier (genFold_block_ok hlt (genFold_skip_identifier
        (genFold_block_ok hadd (genFold_nil_ok _)))))
  have hmain15 : generateFunctionMap [.identifier "fib", .int 15] = .ok ⟨[]⟩ :=
    gen_identifier_head_ok (by decide)
      (genFold_skip_identifier (genFold_skip_int (genFold_nil_ok _)))
  have hgF : generateFunctionMap fibInner = .ok ⟨[("fib", .i32)]⟩ :=
    @gen_fn_ok
      [.typedIdentifier "fib" "i32",
       .block [.typedIdentifier "val" "i32"],
       .block [.identifier "if",
         .block [.identifier "lt_i32", .identifier "val", .int 2],
         .identifier "val",
         .block [.identifier "add_i32",
           .block [.identifier "fib", .block [.identifier "sub_i32", .identifier "val", .int 1]],
           .block [.identifier "fib", .block [.identifier "sub_i32", .identifier "val", .int 2]]]]]
      ⟨"fib", .i32⟩ ⟨[]⟩ rfl
      (gen_block_head_ok (genFold_block_ok hifl (genFold_nil_ok _)))
  have hgM : generateFunctionMap mainInner = .ok ⟨[("main", .i32)]⟩ :=
    @gen_fn_ok
      [.typedIdentifier "main" "i32", .block [],
       .block [.identifier "fib", .int 15]]
      ⟨"main", .i32⟩ ⟨[]⟩ rfl
      (gen_block_head_ok (genFold_block_ok hmain15 (genFold_nil_ok _)))
  exact gen_block_head_ok (genFold_block_ok hgM (genFold_block_ok hgF (genFold_nil_ok _)))

/-- Seeding the 13 standard functions on top of the pre-pass map of
`forwardProgram` yields `seededMap`. -/
theorem registerStandardFunctions_forwardProgram :
    (registerStandardFunctions emptyModule
      ⟨[("main", .i32), ("fib", .i32)]⟩).2 = seededMap := rfl

/-- C6: the signature pre-pass visits the entire tree (definitions nested
inside bodies included) before any body is compiled, so a function called
before its definition appears in source order still resolves; in
particular the concrete program in which `main` calls `fib` before `fib`'s
definition, and `fib` calls itself, compiles successfully. -/
theorem C6_forward_references :
    (∀ (exprs : List AstNode) (name : String), FnDefIn exprs name →
      ∀ m : FunctionMap, generateFunctionMap exprs = .ok m →
        (m.get name).isSome = true) ∧
    isOk (compile forwardProgram) = true := by
  constructor
  · intro exprs name hdef m hm
    exact generateFunctionMap_contains hdef m hm
  · have hval : ∀ mod : Module, compileExpression seededMap fibParams mod
        (.identifier "val") = .ok (.localGet 0 .i32, mod) := fun mod =>
      @cE_identifier_ok fibParams "val" ⟨0, .i32⟩ seededMap mod rfl
    have hsub1 : ∀ mod : Module, compileExpression seededMap fibParams mod
        (.block [.identifier "sub_i32", .identifier "val", .int 1]) =
        .ok (.call "sub_i32" [.localGet 0 .i32, .constI32 1] .i32, mod) := fun mod => by
      rw [cE_block_eq, compileBlock_call_eq]
      case h => rfl
      exact cFC_ordinary_ok (by decide) (by decide) rfl
        (compileExprSeq_cons_ok (hval mod)
          (compileExprSeq_cons_ok (cE_int_ok _ _ _ _) (compileExprSeq_nil_ok _ _ _)))
    have hsub2 : ∀ mod : Module, compileExpression seededMap fibParams mod
        (.block [.identifier "sub_i32", .identifier "val", .int 2]) =
        .ok (.call "sub_i32" [.localGet 0 .i32, .constI32 2] .i32, mod) := fun mod => by
      rw [cE_block_eq, compileBlock_call_eq]
      case h => rfl
      exact cFC_ordinary_ok (by decide) (by decide) rfl
        (compileExprSeq_cons_ok (hval mod)
          (compileExprSeq_cons_ok (cE_int_ok _ _ _ _) (compileExprSeq_nil_ok _ _ _)))
    have hfc1 : ∀ mod : Module, compileExpression seededMap fibParams mod
        (.block [.identifier "fib",
          .block [.identifier "sub_i32", .identifier "val", .int 1]]) =
        .ok (.call "fib" [.call "sub_i32" [.localGet 0 .i32, .constI32 1] .i32] .i32,
          mod) := fun mod => by
      rw [cE_block_eq, compileBlock_call_eq]
      case h => rfl
      exact cFC_ordinary_ok (by decide) (by decide) rfl
        (compileExprSeq_cons_ok (hsub1 mod) (compileExprSeq_nil_ok _ _ _))
    have hfc2 : ∀ mod : Module, compileExpression seededMap fibParams mod
        (.block [.identifier "fib",
          .block [.identifier "sub_i32", .identifier "val", .int 2]]) =
        .ok (.call "fib" [.call "sub_i32" [.localGet 0 .i32, .constI32 2] .i32] .i32,
          mod) := fun mod => by
      rw [cE_block_eq, compileBlock_call_eq]
      case h => rfl
      exact cFC_ordinary_ok (by decide) (by decide) rfl
        (compileExprSeq_cons_ok (hsub2 mod) (compileExprSeq_nil_ok _ _ _))
    have hlt : ∀ mod : Module, compileExpression seededMap fibParams mod
        (.block [.identifier "lt_i32", .identifier "val", .int 2]) =
        .ok (.call "lt_i32" [.localGet 0 .i32, .constI32 2] .i32, mod) := fun mod => by
      rw [cE_block_eq, compileBlock_call_eq]
      case h => rfl
      exact cFC_ordinary_ok (by decide) (by decide) rfl
        (compileExprSeq_cons_ok (hval mod)
          (compileExprSeq_cons_ok (cE_int_ok _ _ _ _) (compileExprSeq_nil_ok _ _ _)))
    have hadd : ∀ mod : Module, compileExpression seededMap fibParams mod
        (.block [.identifier "add_i32",
          .block [.identifier "fib",
            .block [.identifier "sub_i32", .identifier "val", .int 1]],
          .block [.identifier "fib",
            .block [.identifier "sub_i32", .identifier "val", .int 2]]]) =
        .ok (.call "add_i32"
          [.call "fib" [.call "sub_i32" [.localGet 0 .i32, .constI32 1] .i32] .i32,
           .call "fib" [.call "sub_i32" [.localGet 0 .i32, .constI32 2] .i32] .i32]
          .i32, mod) := fun mod => by
      rw [cE_block_eq, compileBlock_call_eq]
      case h => rfl
      exact cFC_ordinary_ok (by decide) (by decide) rfl
        (compileExprSeq_cons_ok (hfc1 mod)
          (compileExprSeq_cons_ok (hfc2 mod) (compileExprSeq_nil_ok _ _ _)))
    have hif : ∀ mod : Module, compileExpression seededMap fibParams mod
        (.block [.identifier "if",
          .block [.identifier "lt_i32", .identifier "val", .int 2],
          .identifier "val",
          .block [.identifier "add_i32",
            .block [.identifier "fib",
              .block [.identifier "sub_i32", .identifier "val", .int 1]],
            .block [.identifier "fib",
              .block [.identifier "sub_i32", .identifier "val", .int 2]]]]) =
        .ok (.ifOp (.call "lt_i32" [.localGet 0 .i32, .constI32 2] .i32)
          (.localGet 0 .i32)
          (some (.call "add_i32"
            [.call "fib" [.call "sub_i32" [.localGet 0 .i32, .constI32 1] .i32] .i32,
             .call "fib" [.call "sub_i32" [.localGet 0 .i32, .constI32 2] .i32] .i32]
            .i32)), mod) := fun mod => by
      rw [cE_block_eq, compileBlock_call_eq]
      case h => rfl
      rw [cFC_if_eq]
      exact compileIf_some_ok rfl rfl rfl (hlt mod) (hval mod) (hadd mod)
    have hfibDef : ∀ mod : Module, compileExpression seededMap ⟨[]⟩ mod
        (.block fibInner) =
        .ok (.nop, addFunctionExport
          (addFunction mod "fib" [.i32] .i32
            (.blockOp [.ifOp (.call "lt_i32" [.localGet 0 .i32, .constI32 2] .i32)
              (.localGet 0 .i32)
              (some (.call "add_i32"
                [.call "fib" [.call "sub_i32" [.localGet 0 .i32, .constI32 1] .i32] .i32,
                 .call "fib" [.call "sub_i32" [.localGet 0 .i32, .constI32 2] .i32] .i32]
                .i32))]))
          "fib" "fib") := fun mod => by
      simp only [fibInner]
      rw [cE_block_eq, compileBlock_call_eq]
      case h => rfl
      rw [cFC_fn_eq]
      exact @compileFunction_ok seededMap ⟨[]⟩ mod _ ⟨"fib", .i32⟩
        ⟨fibParams, [.i32]⟩ _ _ rfl rfl
        (compileBlock_seq_ok rfl
          (compileExprSeq_cons_ok (hif mod) (compileExprSeq_nil_ok _ _ _)))
    have hfib15 : ∀ mod : Module, compileExpression seededMap ⟨[]⟩ mod
        (.block [.identifier "fib", .int 15]) =
        .ok (.call "fib" [.constI32 15] .i32, mod) := fun mod => by
      rw [cE_block_eq, compileBlock_call_eq]
      case h => rfl
      exact cFC_ordinary_ok (by decide) (by decide) rfl
        (compileExprSeq_cons_ok (cE_int_ok _ _ _ _) (compileExprSeq_nil_ok _ _ _))
    have hmainDef : ∀ mod : Module, compileExpression seededMap ⟨[]⟩ mod
        (.block mainInner) =
        .ok (.nop, addFunctionExport
          (addFunction mod "main" [] .i32 (.blockOp [.call "fib" [.constI32 15] .i32]))
          "main" "main") := fun mod => by
      simp only [mainInner]
      rw [cE_block_eq, compileBlock_call_eq]
      case h => rfl
      rw [cFC_fn_eq]
      exact @compileFunction_ok seededMap ⟨[]⟩ mod _ ⟨"main", .i32⟩
        ⟨⟨[]⟩, []⟩ _ _ rfl rfl
        (compileBlock_seq_ok rfl
          (compileExprSeq_cons_ok (hfib15 mod) (compileExprSeq_nil_ok _ _ _)))
    have hprog : ∀ mod : Module, compileExpression seededMap ⟨[]⟩ mod
        (.block forwardProgram) =
        .ok (.blockOp [.nop, .nop],
          addFunctionExport
            (addFunction
              (addFunctionExport
                (addFunction mod "main" [] .i32
                  (.blockOp [.call "fib" [.constI32 15] .i32]))
                "main" "main")
              "fib" [.i32] .i32
              (.blockOp [.ifOp (.call "lt_i32" [.localGet 0 .i32, .constI32 2] .i32)
                (.localGet 0 .i32)
                (some (.call "add_i32"
                  [.call "fib" [.call "sub_i32" [.localGet 0 .i32, .constI32 1] .i32]
                    .i32,
                   .call "fib" [.call "sub_i32" [.localGet 0 .i32, .constI32 2] .i32]
                    .i32]
                  .i32))]))
            "fib" "fib") := fun mod => by
      simp only [forwardProgram]
      rw [cE_block_eq]
      exact compileBlock_seq_ok rfl
        (compileExprSeq_cons_ok (hmainDef mod)
          (compileExprSeq_cons_ok (hfibDef _) (compileExprSeq_nil_ok _ _ _)))
    have hreg := registerStandardFunctions_forwardProgram
    have hcE := hprog (registerStandardFunctions emptyModule
      ⟨[("main", .i32), ("fib", .i32)]⟩).1
    rw [← hreg] at hcE
    rw [compile_ok generateFunctionMap_forwardProgram hcE]
    rfl

/-- Witness for C6's pre-pass clause: the nested `fib` definition of
`forwardProgram` is found, so the generated signature map contains
`fib`. -/
theorem C6_forward_references_witness :
    (((⟨[("main", .i32), ("fib", .i32)]⟩ : FunctionMap).get "fib").isSome = true) := by
  have hdef : FnDefIn forwardProgram "fib" := by
    refine FnDefIn.inChild forwardProgram fibInner "fib" rfl ?_ ?_
    · exact List.mem_cons_of_mem _ (List.mem_cons_self _ _)
    · exact FnDefIn.here "fib" "i32" _
  exact C6_forward_references.1 forwardProgram "fib" hdef
    ⟨[("main", .i32), ("fib", .i32)]⟩ generateFunctionMap_forwardProgram

end Wispy
